import Mathlib

/-!
Shallow embedding of `find_roots.py`: four one-dimensional root-finding
routines, modelled over exact rationals.  Python floats are idealised as
`ℚ`; the float literals `0.3679`, `0.6321` and the tolerance defaults are
the exact rationals written in the source.  Exceptions are modelled as
error values:

* the `ValueError` raises become the configuration errors below;
* the `raise AlgorithmFailure` sites keep their identity (`noBracket`,
  `hybridNeedsBracket`, `slopeZero`, `iterLimit`); the class name
  `AlgorithmFailure` is itself unbound in the module, so CPython actually
  raises `NameError` at those sites, with identical control flow, and the
  model records which raise site was reached;
* `nameError` models the unbound-name read of `contraction_factor` in the
  validation block of `find_root_Regula_Falsi` (source lines 314-323);
* `unboundLocalC` models `return c` executed while the local `c` was never
  assigned (CPython raises `UnboundLocalError`);
* `zeroDivision` models `ZeroDivisionError` at the slope divisions, since
  division on `ℚ` is total where Python float division raises.

Each solver returns the root estimate together with the step and call
counters the source maintains (`verbose` printing is dropped; the counter
fields of an `Outcome` are the number of loop steps reached and the number
of evaluations of `f` performed).  The unbounded `while True` loops are run
on explicit fuel `max_steps + 1`; the in-loop step-counter checks fire
strictly before that much fuel can be consumed, so the `fuelOut` result is
unreachable for the fuel the wrappers supply.
-/

namespace FindRoots

/-- Error outcomes of the four solvers, one constructor per raise site of
`find_roots.py` (plus `fuelOut` for the fuel guard of the embedding). -/
inductive Err where
  | xtolNonpositive : Err
  | ftolNonpositive : Err
  | contractionOutOfRange : Err
  | useBisectionNegative : Err
  | needSeparatedStart : Err
  | noBracket : Err
  | hybridNeedsBracket : Err
  | slopeZero : ℕ → Err
  | iterLimit : ℕ → Err
  | nameError : Err
  | unboundLocalC : Err
  | zeroDivision : Err
  | fuelOut : Err
  deriving DecidableEq, Repr

instance {ε α : Type} [DecidableEq ε] [DecidableEq α] :
    DecidableEq (Except ε α) := fun x y =>
  match x, y with
  | .error e, .error e2 =>
      if h : e = e2 then .isTrue (congrArg Except.error h)
      else .isFalse (fun hc => h (by injection hc))
  | .error _, .ok _ => .isFalse (fun hc => Except.noConfusion hc)
  | .ok _, .error _ => .isFalse (fun hc => Except.noConfusion hc)
  | .ok q, .ok q2 =>
      if h : q = q2 then .isTrue (congrArg Except.ok h)
      else .isFalse (fun hc => h (by injection hc))

/-- Result of one solver invocation: outcome plus the `steps` and `calls`
counters at exit. -/
structure Outcome where
  res : Except Err ℚ
  steps : ℕ
  calls : ℕ
  deriving DecidableEq, Repr

/-- The shared convergence predicate (spec 4.1): with `both = true` the new
point `c` must satisfy both `|c - b| ≤ xtol` and `|f(c)| ≤ ftol`, with
`both = false` either one suffices. -/
def converged (both : Bool) (xtol ftol c b fc : ℚ) : Bool :=
  if both then decide (|c - b| ≤ xtol) && decide (|fc| ≤ ftol)
  else decide (|c - b| ≤ xtol) || decide (|fc| ≤ ftol)

/-- Loop state of `find_root_bisection`: current pair with values plus the
instrumentation counters. -/
structure BState where
  a : ℚ
  fa : ℚ
  b : ℚ
  fb : ℚ
  steps : ℕ
  calls : ℕ
  deriving DecidableEq, Repr

/-- The endpoint update of `find_root_bisection` (source lines 113-118):
`if f_a * f_c < f_b * f_c` replace `b` with `c`, else shift
`a, f_a, b, f_b = b, f_b, c, f_c`. -/
def bisectUpdate (st : BState) (c fc : ℚ) : BState :=
  if st.fa * fc < st.fb * fc then { st with b := c, fb := fc }
  else { st with a := st.b, fa := st.fb, b := c, fb := fc }

/-- The `while True` loop of `find_root_bisection` (source lines 94-125):
midpoint, evaluate, convergence check, endpoint update, step-limit check. -/
def bisectLoop (f : ℚ → ℚ) (ftol xtol : ℚ) (both : Bool) (max_steps : ℕ) :
    ℕ → BState → Outcome
  | 0, st => ⟨.error .fuelOut, st.steps, st.calls⟩
  | fuel + 1, st =>
      let c := (st.a + st.b) / 2
      let fc := f c
      if converged both xtol ftol c st.b fc then ⟨.ok c, st.steps, st.calls + 1⟩
      else
        let st1 := bisectUpdate st c fc
        if max_steps < st.steps + 1 then
          ⟨.error (.iterLimit max_steps), st.steps + 1, st.calls + 1⟩
        else
          bisectLoop f ftol xtol both max_steps fuel
            { st1 with steps := st.steps + 1, calls := st.calls + 1 }

/-- `find_root_bisection` (source lines 15-125): validation, the two initial
evaluations, the bracket precondition `f_a * f_b > 0 → AlgorithmFailure`,
the pre-loop convergence shortcuts, then the loop. -/
def find_root_bisection (f : ℚ → ℚ) (a b ftol xtol : ℚ) (both : Bool)
    (max_steps : ℕ) : Outcome :=
  if xtol ≤ 0 then ⟨.error .xtolNonpositive, 0, 0⟩
  else if ftol ≤ 0 then ⟨.error .ftolNonpositive, 0, 0⟩
  else
    let fa := f a
    let fb := f b
    if 0 < fa * fb then ⟨.error .noBracket, 0, 2⟩
    else if both then
      if |b - a| ≤ xtol then
        if |fa| ≤ ftol then ⟨.ok a, 1, 2⟩
        else if |fb| ≤ ftol then ⟨.ok b, 1, 2⟩
        else bisectLoop f ftol xtol both max_steps (max_steps + 1) ⟨a, fa, b, fb, 1, 2⟩
      else bisectLoop f ftol xtol both max_steps (max_steps + 1) ⟨a, fa, b, fb, 1, 2⟩
    else
      if |fa| ≤ ftol then ⟨.ok a, 1, 2⟩
      else if |fb| ≤ ftol then ⟨.ok b, 1, 2⟩
      else bisectLoop f ftol xtol both max_steps (max_steps + 1) ⟨a, fa, b, fb, 1, 2⟩

/-- Loop state of `find_root_secant`: current pair with values, the value of
the Python local `c` from the previous iteration if it was ever assigned
(`none` before the first assignment), and the counters. -/
structure SState where
  a : ℚ
  fa : ℚ
  b : ℚ
  fb : ℚ
  cPrev : Option ℚ
  steps : ℕ
  calls : ℕ
  deriving DecidableEq, Repr

/-- One loop iteration either exits with an outcome or continues with a new
state. -/
inductive SecRes where
  | done : Outcome → SecRes
  | next : SState → SecRes
  deriving DecidableEq, Repr

/-- Tail of a secant iteration after the slope is settled (source lines
238-257): compute `c = b - f_b/slope`, evaluate, convergence check,
step-limit check, window shift.  `slope = 0` is reachable only when
`min_slope ≤ 0` and mirrors Python `ZeroDivisionError`. -/
def secantCore (f : ℚ → ℚ) (ftol xtol : ℚ) (both : Bool) (max_steps : ℕ)
    (st : SState) (slope : ℚ) : SecRes :=
  if slope = 0 then .done ⟨.error .zeroDivision, st.steps, st.calls⟩
  else
    let c := st.b - st.fb / slope
    let fc := f c
    if converged both xtol ftol c st.b fc then .done ⟨.ok c, st.steps, st.calls + 1⟩
    else if max_steps < st.steps + 1 then
      .done ⟨.error (.iterLimit max_steps), st.steps + 1, st.calls + 1⟩
    else .next ⟨st.b, st.fb, c, fc, some c, st.steps + 1, st.calls + 1⟩

/-- One iteration of the `while True` loop of `find_root_secant` (source
lines 220-257): slope, one-shot slope repair `b = 0.3679*a + 0.6321*b`, the
slope-degenerate exit (`break` falls through to `return c`, which reads the
stale local `c` and is an unbound-local error on the first iteration), the
near-zero-slope failure, then `secantCore`. -/
def secantStep (f : ℚ → ℚ) (ftol xtol : ℚ) (both : Bool) (max_steps : ℕ)
    (min_slope : ℚ) (st : SState) : SecRes :=
  if st.b - st.a = 0 then .done ⟨.error .zeroDivision, st.steps, st.calls⟩
  else
    let slope := (st.fb - st.fa) / (st.b - st.a)
    if |slope| < min_slope then
      let b2 := 3679 / 10000 * st.a + 6321 / 10000 * st.b
      let fb2 := f b2
      let slope2 := (fb2 - st.fa) / (b2 - st.a)
      if |slope2| < min_slope then
        if |b2 - st.a| ≤ xtol then
          .done ⟨(match st.cPrev with
                  | some c => .ok c
                  | none => .error .unboundLocalC), st.steps, st.calls + 1⟩
        else .done ⟨.error (.slopeZero st.steps), st.steps, st.calls + 1⟩
      else
        secantCore f ftol xtol both max_steps
          { st with b := b2, fb := fb2, calls := st.calls + 1 } slope2
    else secantCore f ftol xtol both max_steps st slope

/-- Fuel-driven run of the secant loop. -/
def secantLoop (f : ℚ → ℚ) (ftol xtol : ℚ) (both : Bool) (max_steps : ℕ)
    (min_slope : ℚ) : ℕ → SState → Outcome
  | 0, st => ⟨.error .fuelOut, st.steps, st.calls⟩
  | fuel + 1, st =>
      match secantStep f ftol xtol both max_steps min_slope st with
      | .done o => o
      | .next st1 => secantLoop f ftol xtol both max_steps min_slope fuel st1

/-- `find_root_secant` (source lines 128-265): validation, the `both`-mode
dependent initial evaluations and shortcuts (including the `ValueError`
when `both = false` and `|b - a| ≤ xtol`), then the loop. -/
def find_root_secant (f : ℚ → ℚ) (a b ftol xtol : ℚ) (both : Bool)
    (max_steps : ℕ) (min_slope : ℚ) : Outcome :=
  if xtol ≤ 0 then ⟨.error .xtolNonpositive, 0, 0⟩
  else if ftol ≤ 0 then ⟨.error .ftolNonpositive, 0, 0⟩
  else if both then
    let fa := f a
    let fb := f b
    if |b - a| ≤ xtol then
      if |fa| ≤ ftol then ⟨.ok a, 1, 2⟩
      else if |fb| ≤ ftol then ⟨.ok b, 1, 2⟩
      else secantLoop f ftol xtol both max_steps min_slope (max_steps + 1)
        ⟨a, fa, b, fb, none, 1, 2⟩
    else secantLoop f ftol xtol both max_steps min_slope (max_steps + 1)
      ⟨a, fa, b, fb, none, 1, 2⟩
  else
    if |b - a| ≤ xtol then ⟨.error .needSeparatedStart, 1, 0⟩
    else
      let fa := f a
      if |fa| ≤ ftol then ⟨.ok a, 1, 1⟩
      else
        let fb := f b
        if |fb| ≤ ftol then ⟨.ok b, 1, 2⟩
        else secantLoop f ftol xtol both max_steps min_slope (max_steps + 1)
          ⟨a, fa, b, fb, none, 1, 2⟩

/-- `find_root_Regula_Falsi` (source lines 268-446).  Its validation block
(lines 314-323) reads the names `contraction_factor` and `use_bisection`,
which are neither parameters of this function nor assigned in its body nor
module globals, so as soon as the `xtol` and `ftol` checks pass, the
comparison `0.5 <= contraction_factor` at line 318 raises `NameError`
before `f` is evaluated anywhere; the remainder of the function body is
unreachable. -/
def find_root_Regula_Falsi (f : ℚ → ℚ) (a b ftol xtol : ℚ) (both : Bool)
    (max_steps : ℕ) (min_slope : ℚ) : Outcome :=
  if xtol ≤ 0 then ⟨.error .xtolNonpositive, 0, 0⟩
  else if ftol ≤ 0 then ⟨.error .ftolNonpositive, 0, 0⟩
  else ⟨.error .nameError, 0, 0⟩

/-- Loop state of the hybrid solver `find_root`: current pair with values,
the `use_bisection` countdown, the stale Python local `c` (as in `SState`),
and the counters. -/
structure HState where
  a : ℚ
  fa : ℚ
  b : ℚ
  fb : ℚ
  ub : ℕ
  cPrev : Option ℚ
  steps : ℕ
  calls : ℕ
  deriving DecidableEq, Repr

/-- One hybrid loop iteration either exits with an outcome or continues. -/
inductive HRes where
  | done : Outcome → HRes
  | next : HState → HRes
  deriving DecidableEq, Repr

/-- The bisection-mode body of the hybrid loop (source lines 874-898):
midpoint, evaluate, `f_a * f_c < 0` keeps `a` and replaces `b`, otherwise
`a, f_a, b, f_b = b, f_b, c, f_c`; decrement `use_bisection`; no
convergence check, no Regula-Falsi logic. -/
def hybridBisect (f : ℚ → ℚ) (st : HState) : HState :=
  let c := (st.a + st.b) / 2
  let fc := f c
  if st.fa * fc < 0 then
    { st with b := c, fb := fc, ub := st.ub - 1, cPrev := some c, calls := st.calls + 1 }
  else
    { st with a := st.b, fa := st.fb, b := c, fb := fc, ub := st.ub - 1, cPrev := some c, calls := st.calls + 1 }

/-- The bracket classification of a hybrid Regula-Falsi step (source lines
935-977), applied to the state at the classification point with the fresh
point `c` and its value `fc`: bracketing pair with non-interior `c` sets
`use_bisection = 1` and leaves the pair unchanged; interior `c` updates the
pair by the sign test `f_b * f_c ≥ 0` and then applies the contraction
check `max(a,b) - min(a,b) > cf * x_rng`; non-bracketing pair shifts. -/
def hybridClassify (cf : ℚ) (st : HState) (c fc : ℚ) : HState :=
  if st.fa * st.fb < 0 then
    if ¬(min st.a st.b < c ∧ c < max st.a st.b) then { st with ub := 1 }
    else
      let xrng := max st.a st.b - min st.a st.b
      let st1 :=
        if 0 ≤ st.fb * fc then { st with b := c, fb := fc }
        else { st with a := st.b, fa := st.fb, b := c, fb := fc }
      if cf * xrng < max st1.a st1.b - min st1.a st1.b then { st1 with ub := 1 }
      else st1
  else { st with a := st.b, fa := st.fb, b := c, fb := fc }

/-- Tail of a hybrid Regula-Falsi step after the slope is settled (source
lines 922-977): compute `c`, evaluate, convergence check, then
`hybridClassify`; the stale local `c` is refreshed. -/
def hybridRFcore (f : ℚ → ℚ) (ftol xtol cf : ℚ) (both : Bool)
    (st : HState) (slope : ℚ) : HRes :=
  if slope = 0 then .done ⟨.error .zeroDivision, st.steps, st.calls⟩
  else
    let c := st.b - st.fb / slope
    let fc := f c
    if converged both xtol ftol c st.b fc then .done ⟨.ok c, st.steps, st.calls + 1⟩
    else
      let st2 := hybridClassify cf { st with calls := st.calls + 1 } c fc
      .next { st2 with cPrev := some c }

/-- The Regula-Falsi-mode body of the hybrid loop (source lines 903-977):
slope, one-shot slope repair, slope-degenerate exit through the stale local
`c`, near-zero-slope failure, then `hybridRFcore`. -/
def hybridRF (f : ℚ → ℚ) (ftol xtol cf min_slope : ℚ) (both : Bool)
    (st : HState) : HRes :=
  if st.b - st.a = 0 then .done ⟨.error .zeroDivision, st.steps, st.calls⟩
  else
    let slope := (st.fb - st.fa) / (st.b - st.a)
    if |slope| < min_slope then
      let b2 := 3679 / 10000 * st.a + 6321 / 10000 * st.b
      let fb2 := f b2
      let slope2 := (fb2 - st.fa) / (b2 - st.a)
      if |slope2| < min_slope then
        if |b2 - st.a| ≤ xtol then
          .done ⟨(match st.cPrev with
                  | some c => .ok c
                  | none => .error .unboundLocalC), st.steps, st.calls + 1⟩
        else .done ⟨.error (.slopeZero st.steps), st.steps, st.calls + 1⟩
      else
        hybridRFcore f ftol xtol cf both
          { st with b := b2, fb := fb2, calls := st.calls + 1 } slope2
    else hybridRFcore f ftol xtol cf both st slope

/-- One iteration of the `while True` loop of `find_root` (source lines
868-979): increment `steps` and check the limit, then dispatch on
`use_bisection`. -/
def hybridStep (f : ℚ → ℚ) (ftol xtol cf min_slope : ℚ) (both : Bool)
    (max_steps : ℕ) (st : HState) : HRes :=
  if max_steps < st.steps + 1 then
    .done ⟨.error (.iterLimit max_steps), st.steps + 1, st.calls⟩
  else if 0 < st.ub then .next (hybridBisect f { st with steps := st.steps + 1 })
  else hybridRF f ftol xtol cf min_slope both { st with steps := st.steps + 1 }

/-- Fuel-driven run of the hybrid loop. -/
def hybridLoop (f : ℚ → ℚ) (ftol xtol cf min_slope : ℚ) (both : Bool)
    (max_steps : ℕ) : ℕ → HState → Outcome
  | 0, st => ⟨.error .fuelOut, st.steps, st.calls⟩
  | fuel + 1, st =>
      match hybridStep f ftol xtol cf min_slope both max_steps st with
      | .done o => o
      | .next st1 => hybridLoop f ftol xtol cf min_slope both max_steps fuel st1

/-- The bracket precondition of `find_root` (source lines 863-865), reached
only after the pre-loop convergence shortcuts: with `use_bisection`
non-zero and `f_a * f_b > 0`, fail; otherwise enter the loop. -/
def hybridEnter (a fa b fb : ℚ) (ub : ℕ) (calls : ℕ) : Outcome ⊕ HState :=
  if ub ≠ 0 ∧ 0 < fa * fb then .inl ⟨.error .hybridNeedsBracket, 0, calls⟩
  else .inr ⟨a, fa, b, fb, ub, none, 0, calls⟩

/-- Validation and pre-loop phase of `find_root` (source lines 808-865),
ending either in an immediate outcome or in the initial loop state. -/
def hybridPre (f : ℚ → ℚ) (a b ftol xtol : ℚ) (both : Bool) (cf : ℚ)
    (ub : ℤ) : Outcome ⊕ HState :=
  if xtol ≤ 0 then .inl ⟨.error .xtolNonpositive, 0, 0⟩
  else if ftol ≤ 0 then .inl ⟨.error .ftolNonpositive, 0, 0⟩
  else if ¬(1 / 2 ≤ cf ∧ cf ≤ 1) then .inl ⟨.error .contractionOutOfRange, 0, 0⟩
  else if ub < 0 then .inl ⟨.error .useBisectionNegative, 0, 0⟩
  else if both then
    let fa := f a
    let fb := f b
    if |b - a| ≤ xtol then
      if |fa| ≤ ftol then .inl ⟨.ok a, 0, 2⟩
      else if |fb| ≤ ftol then .inl ⟨.ok b, 0, 2⟩
      else hybridEnter a fa b fb ub.toNat 2
    else hybridEnter a fa b fb ub.toNat 2
  else
    if |b - a| ≤ xtol then .inl ⟨.error .needSeparatedStart, 0, 0⟩
    else
      let fa := f a
      if |fa| ≤ ftol then .inl ⟨.ok a, 0, 1⟩
      else
        let fb := f b
        if |fb| ≤ ftol then .inl ⟨.ok b, 0, 2⟩
        else hybridEnter a fa b fb ub.toNat 2

/-- The hybrid solver `find_root` (source lines 449-985). -/
def find_root (f : ℚ → ℚ) (a b ftol xtol : ℚ) (both : Bool) (cf : ℚ)
    (max_steps : ℕ) (min_slope : ℚ) (ub : ℤ) : Outcome :=
  match hybridPre f a b ftol xtol both cf ub with
  | .inl o => o
  | .inr st => hybridLoop f ftol xtol cf min_slope both max_steps (max_steps + 1) st

/-! Helper lemmas shared by several of the claim theorems. -/

/-- Sign bookkeeping for the bracket updates: if `x` and `y` have opposite
signs and `x` and `z` do not, then `y` and `z` do not have the same strict
sign. -/
lemma sign_flip {x y z : ℚ} (hxy : x * y < 0) (hxz : 0 ≤ x * z) : y * z ≤ 0 := by
  rcases mul_neg_iff.mp hxy with ⟨hx, hy⟩ | ⟨hx, hy⟩
  · have hz : 0 ≤ z := by nlinarith
    exact mul_nonpos_iff.mpr (Or.inr ⟨hy.le, hz⟩)
  · have hz : z ≤ 0 := by nlinarith
    exact mul_nonpos_iff.mpr (Or.inl ⟨hy.le, hz⟩)

/-- The bisection loop can fail with the iteration limit or run out of fuel,
but it never reaches the bracket-precondition raise site, which lies before
the loop. -/
lemma bisectLoop_res_ne_noBracket (f : ℚ → ℚ) (ftol xtol : ℚ) (both : Bool)
    (max_steps : ℕ) : ∀ fuel st,
    (bisectLoop f ftol xtol both max_steps fuel st).res ≠ .error .noBracket := by
  intro fuel
  induction fuel with
  | zero => intro st; simp [bisectLoop]
  | succ n ih =>
      intro st
      rw [bisectLoop]
      dsimp only
      split
      · simp
      · split
        · simp
        · exact ih _

/-- C4: every call to `find_root_Regula_Falsi` whose `xtol` and `ftol`
checks pass fails with the unbound-name error (`contraction_factor` is not
in scope at source line 318) before `f` is evaluated at any point — the
result records zero calls and does not depend on `f` at all — and
consequently no invocation of this solver ever returns a root. -/
theorem regula_falsi_always_name_error (f g : ℚ → ℚ) (a b ftol xtol : ℚ)
    (both : Bool) (max_steps : ℕ) (min_slope : ℚ) :
    (0 < xtol → 0 < ftol →
      find_root_Regula_Falsi f a b ftol xtol both max_steps min_slope =
        ⟨.error .nameError, 0, 0⟩) ∧
    find_root_Regula_Falsi f a b ftol xtol both max_steps min_slope =
      find_root_Regula_Falsi g a b ftol xtol both max_steps min_slope ∧
    ∀ x : ℚ,
      (find_root_Regula_Falsi f a b ftol xtol both max_steps min_slope).res ≠ .ok x := by
  refine ⟨fun hx hf => ?_, rfl, fun x => ?_⟩
  · rw [find_root_Regula_Falsi, if_neg (not_le.mpr hx), if_neg (not_le.mpr hf)]
  · rw [find_root_Regula_Falsi]
    split
    · simp
    · split <;> simp

/-- C4 witness: the unbound-name failure at a concrete valid input. -/
theorem regula_falsi_always_name_error_w :
    (0:ℚ) < 1 ∧
      find_root_Regula_Falsi (fun x => x) 0 1 1 1 true 10 (1/1000000) =
        ⟨.error .nameError, 0, 0⟩ :=
  ⟨by norm_num,
   (regula_falsi_always_name_error (fun x => x) (fun x => x) 0 1 1 1 true 10
      (1/1000000)).1 (by norm_num) (by norm_num)⟩

/-- C10: in `find_root` the `use_bisection > 0` bracket precondition is
checked only after the pre-loop convergence shortcut, so with `both = true`,
`|b - a| ≤ xtol` and `|f(a)| ≤ ftol` the solver returns `a` — even when
`use_bisection > 0` and `f(a) * f(b) > 0`, the combination the precondition
is meant to reject. -/
theorem hybrid_shortcut_before_bracket_check (f : ℚ → ℚ)
    (a b ftol xtol cf min_slope : ℚ) (max_steps : ℕ) (ub : ℤ)
    (hx : 0 < xtol) (hf : 0 < ftol) (hcf : 1 / 2 ≤ cf ∧ cf ≤ 1)
    (hub : 0 < ub) (hprod : 0 < f a * f b)
    (hxa : |b - a| ≤ xtol) (hfa : |f a| ≤ ftol) :
    find_root f a b ftol xtol true cf max_steps min_slope ub = ⟨.ok a, 0, 2⟩ := by
  have h1 : ¬xtol ≤ 0 := not_le.mpr hx
  have h2 : ¬ftol ≤ 0 := not_le.mpr hf
  have h4 : ¬ub < 0 := not_lt.mpr hub.le
  rw [find_root]
  rw [hybridPre, if_neg h1, if_neg h2, if_neg (not_not_intro hcf), if_neg h4]
  simp only [if_pos rfl, if_pos hxa, if_pos hfa]
  rfl

/-- C10 witness: a concrete call with `use_bisection = 1` and
`f(a) * f(b) > 0` that returns `a` instead of raising the bracket
precondition failure. -/
theorem hybrid_shortcut_before_bracket_check_w :
    find_root (fun _ => (1:ℚ)) 0 (1/2) 2 1 true (3/4) 10 (1/1000000) 1 =
      ⟨.ok 0, 0, 2⟩ :=
  hybrid_shortcut_before_bracket_check (fun _ => (1:ℚ)) 0 (1/2) 2 1 (3/4)
    (1/1000000) 10 1 (by norm_num) (by norm_num) (by norm_num) (by norm_num)
    (by norm_num) (by norm_num [abs_of_nonneg]) (by norm_num [abs_of_nonneg])

/-- C7: with positive tolerances, `find_root_bisection` fails at the
bracket-precondition raise site (the `AlgorithmFailure` whose message
directs the caller to `find_root`) exactly when `f(a) * f(b) > 0` — a pair
with `f(a) * f(b) = 0` is accepted — and on that failure exactly one
evaluation of `f` at each of `a` and `b` has been performed. -/
theorem bisection_bracket_precondition_iff (f : ℚ → ℚ) (a b ftol xtol : ℚ)
    (both : Bool) (max_steps : ℕ) (hx : 0 < xtol) (hf : 0 < ftol) :
    ((find_root_bisection f a b ftol xtol both max_steps).res =
        .error .noBracket ↔ 0 < f a * f b) ∧
    (0 < f a * f b →
      find_root_bisection f a b ftol xtol both max_steps =
        ⟨.error .noBracket, 0, 2⟩) := by
  have h1 : ¬xtol ≤ 0 := not_le.mpr hx
  have h2 : ¬ftol ≤ 0 := not_le.mpr hf
  have key : 0 < f a * f b →
      find_root_bisection f a b ftol xtol both max_steps =
        ⟨.error .noBracket, 0, 2⟩ := by
    intro hprod
    rw [find_root_bisection, if_neg h1, if_neg h2]
    dsimp only
    rw [if_pos hprod]
  refine ⟨⟨fun hres => ?_, fun hprod => by rw [key hprod]⟩, key⟩
  by_contra hprod
  rw [find_root_bisection, if_neg h1, if_neg h2] at hres
  dsimp only at hres
  rw [if_neg hprod] at hres
  revert hres
  split
  · split
    · split
      · simp
      · split
        · simp
        · exact bisectLoop_res_ne_noBracket f ftol xtol both max_steps _ _
    · exact bisectLoop_res_ne_noBracket f ftol xtol both max_steps _ _
  · split
    · simp
    · split
      · simp
      · exact bisectLoop_res_ne_noBracket f ftol xtol both max_steps _ _

/-- C7 witness: a concrete same-sign pair fails at the precondition with
two calls, and a concrete bracketing pair does not produce that failure. -/
theorem bisection_bracket_precondition_iff_w :
    find_root_bisection (fun _ => (1:ℚ)) 0 1 1 1 true 10 =
      ⟨.error .noBracket, 0, 2⟩ ∧
    ¬(find_root_bisection (fun x => x - (1:ℚ)/2) 0 1 1 1 true 10).res =
        .error .noBracket :=
  ⟨(bisection_bracket_precondition_iff (fun _ => (1:ℚ)) 0 1 1 1 true 10
      (by norm_num) (by norm_num)).2 (by norm_num),
   fun h => by
     have := (bisection_bracket_precondition_iff (fun x => x - (1:ℚ)/2) 0 1 1 1
       true 10 (by norm_num) (by norm_num)).1.mp h
     norm_num at this⟩

/-- C8 counterexample: the bisection update does not keep the endpoint
whose product with `f(c)` is larger; at `f_a = -1`, `f_b = 1`, `f_c = 1`
the update keeps `a`, whose product `-1` is strictly smaller than the
replaced endpoint's product `1`. -/
theorem bisect_update_keeps_smaller_product_cex :
    ¬ ∀ (st : BState) (c fc : ℚ),
        (bisectUpdate st c fc).a = st.a ∧ (bisectUpdate st c fc).b = c →
        st.fb * fc ≤ st.fa * fc := by
  intro h
  have h2 := h ⟨0, -1, 1, 1, 0, 0⟩ (1/2) 1 (by norm_num [bisectUpdate])
  norm_num at h2

/-- C8 (amended): each non-converged bisection iteration keeps the endpoint
whose product with `f_c` is SMALLER — when `f_a * f_c < f_b * f_c` the pair
becomes `(a, c)`, otherwise `(b, c)` — and when `f(c) = 0` exactly the
products tie, the pair becomes `(b, c)`, and the new pair still satisfies
`f(a) * f(b) ≤ 0`. -/
theorem bisect_update_rule (st : BState) (c fc : ℚ) :
    (st.fa * fc < st.fb * fc → bisectUpdate st c fc = { st with b := c, fb := fc }) ∧
    (st.fb * fc ≤ st.fa * fc →
      bisectUpdate st c fc = { st with a := st.b, fa := st.fb, b := c, fb := fc }) ∧
    (fc = 0 → (bisectUpdate st c fc).fa * (bisectUpdate st c fc).fb ≤ 0) := by
  refine ⟨fun h => by rw [bisectUpdate, if_pos h],
          fun h => by rw [bisectUpdate, if_neg (not_lt.mpr h)],
          fun h => ?_⟩
  subst h
  rw [bisectUpdate]
  simp

/-- C8 witness: the amended update rule evaluated at the counterexample
input. -/
theorem bisect_update_rule_w :
    ((-1:ℚ)) * 1 < 1 * 1 ∧
      bisectUpdate ⟨0, -1, 1, 1, 0, 0⟩ (1/2) 1 = ⟨0, -1, 1/2, 1, 0, 0⟩ :=
  ⟨by norm_num, (bisect_update_rule ⟨0, -1, 1, 1, 0, 0⟩ (1/2) 1).1 (by norm_num)⟩

/-- C9: every hybrid-loop iteration entered with `use_bisection > 0` (and
within the step limit) computes the midpoint `c = (a+b)/2` with `f_c = f(c)`,
replaces `b` with `c` when `f_a * f_c < 0` and otherwise sets `a` to the old
`b` and `b` to `c` (so a tie with `f(c) = 0` falls to the else branch),
decrements `use_bisection` by exactly one, performs exactly one evaluation
of `f`, and continues to the next iteration; the result does not depend on
the tolerances, the contraction factor, `min_slope` or `both`, i.e. no
Regula-Falsi or convergence logic runs in that iteration. -/
theorem hybrid_bisection_mode_step (f : ℚ → ℚ) (ftol xtol cf min_slope : ℚ)
    (both : Bool) (max_steps : ℕ) (st : HState)
    (hub : 0 < st.ub) (hsteps : st.steps + 1 ≤ max_steps) :
    hybridStep f ftol xtol cf min_slope both max_steps st =
      .next (if st.fa * f ((st.a + st.b) / 2) < 0 then
        { st with b := (st.a + st.b) / 2, fb := f ((st.a + st.b) / 2), ub := st.ub - 1, cPrev := some ((st.a + st.b) / 2), steps := st.steps + 1, calls := st.calls + 1 }
      else
        { st with a := st.b, fa := st.fb, b := (st.a + st.b) / 2, fb := f ((st.a + st.b) / 2), ub := st.ub - 1, cPrev := some ((st.a + st.b) / 2), steps := st.steps + 1, calls := st.calls + 1 }) ∧
    (∀ ftol2 xtol2 cf2 min_slope2 both2,
      hybridStep f ftol2 xtol2 cf2 min_slope2 both2 max_steps st =
        hybridStep f ftol xtol cf min_slope both max_steps st) := by
  have hn : ¬max_steps < st.steps + 1 := Nat.not_lt.mpr hsteps
  constructor
  · rw [hybridStep, if_neg hn, if_pos hub, hybridBisect]
  · intro ftol2 xtol2 cf2 min_slope2 both2
    rw [hybridStep, hybridStep, if_neg hn, if_neg hn, if_pos hub, if_pos hub]

/-- C9 witness: a concrete bisection-mode iteration. -/
theorem hybrid_bisection_mode_step_w :
    hybridStep (fun x => x - 1) (1/2) (3/2) (7071/10000) (1/1000000) true 10
        ⟨0, -1, 2, 1, 1, none, 0, 2⟩ =
      .next ⟨2, 1, 1, 0, 0, some 1, 1, 3⟩ := by
  rw [(hybrid_bisection_mode_step (fun x => x - 1) (1/2) (3/2) (7071/10000)
    (1/1000000) true 10 ⟨0, -1, 2, 1, 1, none, 0, 2⟩ (by norm_num)
    (by norm_num)).1]
  norm_num

/-- C6: in the hybrid solver's Regula-Falsi classification, when
`f(a) * f(b) < 0` but `c` is not strictly between `min(a,b)` and
`max(a,b)`, the iteration sets `use_bisection` to `1` and keeps `a`, `f_a`,
`b`, `f_b` unchanged; any state with `use_bisection = 1` then takes the
bisection branch on its next iteration. -/
theorem hybrid_noninterior_c_forces_bisection (f : ℚ → ℚ)
    (ftol xtol cf min_slope : ℚ) (both : Bool) (max_steps : ℕ)
    (st : HState) (c fc : ℚ)
    (hbr : st.fa * st.fb < 0)
    (hni : ¬(min st.a st.b < c ∧ c < max st.a st.b)) :
    hybridClassify cf st c fc = { st with ub := 1 } ∧
    ∀ t : HState, t.ub = 1 → t.steps + 1 ≤ max_steps →
      hybridStep f ftol xtol cf min_slope both max_steps t =
        .next (hybridBisect f { t with steps := t.steps + 1 }) := by
  constructor
  · rw [hybridClassify, if_pos hbr, if_pos hni]
  · intro t h1 h2
    rw [hybridStep, if_neg (Nat.not_lt.mpr h2), if_pos (by rw [h1]; norm_num)]

/-- C6 witness: a concrete bracketing state whose non-interior `c` forces a
bisection step. -/
theorem hybrid_noninterior_c_forces_bisection_w :
    hybridClassify (7071/10000) ⟨0, -1, 2, 1, 0, none, 1, 3⟩ 5 4 =
      ⟨0, -1, 2, 1, 1, none, 1, 3⟩ :=
  (hybrid_noninterior_c_forces_bisection (fun x => x) (1/2) (3/2)
    (7071/10000) (1/1000000) true 10 ⟨0, -1, 2, 1, 0, none, 1, 3⟩ 5 4
    (by norm_num) (by norm_num)).1

/-- C1: after a hybrid Regula-Falsi classification in which
`f(a) * f(b) < 0` held and `c` was strictly interior, if the updated pair's
width exceeds `contraction_factor` times the pre-update width then
`use_bisection` is set to `1` (for either branch of the `f_b * f_c ≥ 0`
sign test); a state with `use_bisection = 1` then takes exactly one
bisection step, leaving `use_bisection = 0`, and a state with
`use_bisection = 0` runs the Regula-Falsi body, so Regula Falsi resumes
after exactly one bisection step. -/
theorem hybrid_contraction_triggers_single_bisection (f : ℚ → ℚ)
    (ftol xtol cf min_slope : ℚ) (both : Bool) (max_steps : ℕ)
    (st : HState) (c fc : ℚ)
    (hbr : st.fa * st.fb < 0)
    (hint : min st.a st.b < c ∧ c < max st.a st.b) :
    (0 ≤ st.fb * fc →
      cf * (max st.a st.b - min st.a st.b) < max st.a c - min st.a c →
      hybridClassify cf st c fc = { st with b := c, fb := fc, ub := 1 }) ∧
    (st.fb * fc < 0 →
      cf * (max st.a st.b - min st.a st.b) < max st.b c - min st.b c →
      hybridClassify cf st c fc = { st with a := st.b, fa := st.fb, b := c, fb := fc, ub := 1 }) ∧
    (∀ t : HState, t.ub = 1 → t.steps + 1 ≤ max_steps →
      hybridStep f ftol xtol cf min_slope both max_steps t =
        .next (hybridBisect f { t with steps := t.steps + 1 }) ∧
      (hybridBisect f { t with steps := t.steps + 1 }).ub = 0) ∧
    (∀ t : HState, t.ub = 0 → t.steps + 1 ≤ max_steps →
      hybridStep f ftol xtol cf min_slope both max_steps t =
        hybridRF f ftol xtol cf min_slope both { t with steps := t.steps + 1 }) := by
  refine ⟨fun hsgn hw => ?_, fun hsgn hw => ?_, fun t h1 h2 => ⟨?_, ?_⟩,
    fun t h1 h2 => ?_⟩
  · rw [hybridClassify, if_pos hbr, if_neg (not_not_intro hint)]
    dsimp only
    rw [if_pos hsgn]
    dsimp only
    rw [if_pos hw]
  · rw [hybridClassify, if_pos hbr, if_neg (not_not_intro hint)]
    dsimp only
    rw [if_neg (not_le.mpr hsgn)]
    dsimp only
    rw [if_pos hw]
  · rw [hybridStep, if_neg (Nat.not_lt.mpr h2), if_pos (by rw [h1]; norm_num)]
  · rw [hybridBisect]
    dsimp only
    split <;> simp [h1]
  · rw [hybridStep, if_neg (Nat.not_lt.mpr h2), if_neg (by simp [h1])]

/-- C1 witness: a concrete bracketing classification whose updated width
`3` exceeds `contraction_factor * old width = 2`, setting
`use_bisection = 1`. -/
theorem hybrid_contraction_triggers_single_bisection_w :
    hybridClassify (1/2) ⟨0, -1, 4, 2, 0, none, 1, 3⟩ 3 1 =
      ⟨0, -1, 3, 1, 1, none, 1, 3⟩ :=
  (hybrid_contraction_triggers_single_bisection (fun x => x) (1/2) (3/2)
    (1/2) (1/1000000) true 10 ⟨0, -1, 4, 2, 0, none, 1, 3⟩ 3 1
    (by norm_num) (by norm_num [min_def, max_def])).1
    (by norm_num) (by norm_num [min_def, max_def])

/-- C5 counterexample: a secant run on the constant function `5` from
`a = 0`, `b = 1` with `xtol = 2`, `min_slope = 1/1000` hits the
slope-degenerate exit on the first iteration (slope `0` before and after
the repair shift, and the post-repair `|b - a| = 6321/10000 ≤ xtol`), yet
it does not return the current `b = 6321/10000` — it returns nothing at
all: `return c` reads the never-assigned local `c` and fails. -/
theorem secant_slope_degenerate_return_cex :
    |((5:ℚ) - 5) / (1 - 0)| < 1/1000 ∧
    |(6321:ℚ)/10000 - 0| ≤ 2 ∧
    find_root_secant (fun _ => (5:ℚ)) 0 1 1 2 true 10 (1/1000) =
      ⟨.error .unboundLocalC, 1, 3⟩ ∧
    ∀ x : ℚ,
      (find_root_secant (fun _ => (5:ℚ)) 0 1 1 2 true 10 (1/1000)).res ≠ .ok x := by
  have hrun : find_root_secant (fun _ => (5:ℚ)) 0 1 1 2 true 10 (1/1000) =
      ⟨.error .unboundLocalC, 1, 3⟩ := by
    norm_num [find_root_secant, secantLoop, secantStep, secantCore, converged,
      abs_of_nonneg, abs_of_nonpos]
  refine ⟨by norm_num [abs_of_nonneg], by norm_num [abs_of_nonneg], hrun,
    fun x h => ?_⟩
  rw [hrun] at h
  exact Except.noConfusion h

/-- C5 (amended): in the secant solver, when `|slope| < min_slope` and the
repaired slope is still below `min_slope`: if the post-repair `|b - a|`
exceeds `xtol` the solver fails with the near-zero-slope error naming the
current step, and if `|b - a| ≤ xtol` it returns the previous iteration's
point `c` — the value `b` held before the repair shift, since after every
completed iteration the stale local `c` equals the current `b` — not the
post-repair current `b`; on a first iteration, where `c` was never
assigned, the return itself fails with an unbound-local error. -/
theorem secant_slope_degenerate_behavior (f : ℚ → ℚ) (ftol xtol min_slope : ℚ)
    (both : Bool) (max_steps : ℕ) :
    (∀ st : SState, st.b - st.a ≠ 0 →
      |(st.fb - st.fa) / (st.b - st.a)| < min_slope →
      |(f (3679 / 10000 * st.a + 6321 / 10000 * st.b) - st.fa) /
          (3679 / 10000 * st.a + 6321 / 10000 * st.b - st.a)| < min_slope →
      (¬(|3679 / 10000 * st.a + 6321 / 10000 * st.b - st.a| ≤ xtol) →
        secantStep f ftol xtol both max_steps min_slope st =
          .done ⟨.error (.slopeZero st.steps), st.steps, st.calls + 1⟩) ∧
      (|3679 / 10000 * st.a + 6321 / 10000 * st.b - st.a| ≤ xtol →
        secantStep f ftol xtol both max_steps min_slope st =
          .done ⟨(match st.cPrev with
                  | some c => .ok c
                  | none => .error .unboundLocalC), st.steps, st.calls + 1⟩)) ∧
    (∀ st st2, secantStep f ftol xtol both max_steps min_slope st = .next st2 →
      st2.cPrev = some st2.b) := by
  constructor
  · intro st hab h1 h2
    constructor
    · intro hfar
      rw [secantStep, if_neg hab]
      dsimp only
      rw [if_pos h1]
      rw [if_pos h2, if_neg hfar]
    · intro hnear
      rw [secantStep, if_neg hab]
      dsimp only
      rw [if_pos h1]
      rw [if_pos h2, if_pos hnear]
  · intro st st2 hstep
    rw [secantStep] at hstep
    dsimp only at hstep
    split at hstep
    · exact SecRes.noConfusion hstep
    · split at hstep
      · split at hstep
        · split at hstep <;> exact SecRes.noConfusion hstep
        · rw [secantCore] at hstep
          dsimp only at hstep
          split at hstep
          · exact SecRes.noConfusion hstep
          · split at hstep
            · exact SecRes.noConfusion hstep
            · split at hstep
              · exact SecRes.noConfusion hstep
              · cases hstep
                rfl
      · rw [secantCore] at hstep
        dsimp only at hstep
        split at hstep
        · exact SecRes.noConfusion hstep
        · split at hstep
          · exact SecRes.noConfusion hstep
          · split at hstep
            · exact SecRes.noConfusion hstep
            · cases hstep
              rfl

/-- C5 witness: a concrete state for which both slope checks fail and the
post-repair interval fits within `xtol`; the step returns the stale
previous `c = 9`, not the current `b`. -/
theorem secant_slope_degenerate_behavior_w :
    secantStep (fun _ => (5:ℚ)) 1 2 true 10 1 ⟨0, 5, 1, 5, some 9, 3, 7⟩ =
      .done ⟨.ok 9, 3, 8⟩ :=
  ((secant_slope_degenerate_behavior (fun _ => (5:ℚ)) 1 2 1 true 10).1
    ⟨0, 5, 1, 5, some 9, 3, 7⟩ (by norm_num) (by norm_num)
    (by norm_num)).2 (by norm_num [abs_of_nonneg])

/-- C2 counterexample: a hybrid run from `a = 0`, `b = 2` on `f(x) = x - 1`
with `use_bisection = 1`, `xtol = 3/2`, `ftol = 1/2`: the bisection-mode
step at step 1 generates the midpoint `c = 1` which satisfies the
convergence predicate against the previous point `b = 2`, yet the iteration
continues instead of returning `c`; the solver only returns at step 2 after
4 calls (an immediate return would have been step 1, 3 calls). -/
theorem hybrid_bisection_skips_convergence_cex :
    hybridPre (fun x => x - 1) 0 2 (1/2) (3/2) true (7071/10000) 1 =
      .inr ⟨0, -1, 2, 1, 1, none, 0, 2⟩ ∧
    converged true (3/2) (1/2) ((0 + 2) / 2) 2 ((fun x => x - 1) ((0 + 2) / 2)) = true ∧
    hybridStep (fun x => x - 1) (1/2) (3/2) (7071/10000) (1/1000000) true 10
        ⟨0, -1, 2, 1, 1, none, 0, 2⟩ = .next ⟨2, 1, 1, 0, 0, some 1, 1, 3⟩ ∧
    find_root (fun x => x - 1) 0 2 (1/2) (3/2) true (7071/10000) 10 (1/1000000) 1 =
      ⟨.ok 1, 2, 4⟩ := by
  refine ⟨?_, ?_, ?_, ?_⟩
  · norm_num [hybridPre, hybridEnter, abs_of_nonneg]
  · norm_num [converged, Bool.and_eq_true, decide_eq_true_eq, abs_of_nonneg,
      abs_of_nonpos]
  · norm_num [hybridStep, hybridBisect]
  · norm_num [find_root, hybridPre, hybridEnter, hybridLoop, hybridStep,
      hybridBisect, hybridRF, hybridRFcore, hybridClassify, converged,
      abs_of_nonneg, abs_of_nonpos]

/-- C2 (amended): the convergence predicate is evaluated against the
previous point `b` after each newly generated point, and the solver returns
that point when it holds, in the bisection solver's loop, in the secant
loop, and in the hybrid solver's Regula-Falsi-mode steps — but NOT after a
hybrid bisection-mode step, which always continues to the next iteration
without any convergence check (its midpoints can only be returned by a
later step). -/
theorem convergence_check_locations (f : ℚ → ℚ) (ftol xtol cf min_slope : ℚ)
    (both : Bool) (max_steps fuel : ℕ) :
    (∀ st : HState, 0 < st.ub → st.steps + 1 ≤ max_steps →
      converged both xtol ftol ((st.a + st.b) / 2) st.b (f ((st.a + st.b) / 2)) = true →
      ∃ st2, hybridStep f ftol xtol cf min_slope both max_steps st = .next st2) ∧
    (∀ st : HState, st.ub = 0 → st.steps + 1 ≤ max_steps → st.b - st.a ≠ 0 →
      0 < min_slope →
      min_slope ≤ |(st.fb - st.fa) / (st.b - st.a)| →
      converged both xtol ftol (st.b - st.fb / ((st.fb - st.fa) / (st.b - st.a)))
          st.b (f (st.b - st.fb / ((st.fb - st.fa) / (st.b - st.a)))) = true →
      hybridStep f ftol xtol cf min_slope both max_steps st =
        .done ⟨.ok (st.b - st.fb / ((st.fb - st.fa) / (st.b - st.a))),
               st.steps + 1, st.calls + 1⟩) ∧
    (∀ st : BState,
      converged both xtol ftol ((st.a + st.b) / 2) st.b (f ((st.a + st.b) / 2)) = true →
      bisectLoop f ftol xtol both max_steps (fuel + 1) st =
        ⟨.ok ((st.a + st.b) / 2), st.steps, st.calls + 1⟩) ∧
    (∀ st : SState, st.b - st.a ≠ 0 → 0 < min_slope →
      min_slope ≤ |(st.fb - st.fa) / (st.b - st.a)| →
      converged both xtol ftol (st.b - st.fb / ((st.fb - st.fa) / (st.b - st.a)))
          st.b (f (st.b - st.fb / ((st.fb - st.fa) / (st.b - st.a)))) = true →
      secantStep f ftol xtol both max_steps min_slope st =
        .done ⟨.ok (st.b - st.fb / ((st.fb - st.fa) / (st.b - st.a))),
               st.steps, st.calls + 1⟩) := by
  refine ⟨fun st hub hsteps _ => ⟨hybridBisect f { st with steps := st.steps + 1 }, ?_⟩,
    fun st h0 hsteps hab hms hslope hconv => ?_,
    fun st hconv => ?_, fun st hab hms hslope hconv => ?_⟩
  · rw [hybridStep, if_neg (Nat.not_lt.mpr hsteps), if_pos hub]
  · have hslope0 : (st.fb - st.fa) / (st.b - st.a) ≠ 0 :=
      abs_pos.mp (lt_of_lt_of_le hms hslope)
    rw [hybridStep, if_neg (Nat.not_lt.mpr hsteps), if_neg (by simp [h0]),
      hybridRF]
    dsimp only
    rw [if_neg hab, if_neg (not_lt.mpr hslope), hybridRFcore]
    dsimp only
    rw [if_neg hslope0, if_pos hconv]
  · rw [bisectLoop]
    dsimp only
    rw [if_pos hconv]
  · have hslope0 : (st.fb - st.fa) / (st.b - st.a) ≠ 0 :=
      abs_pos.mp (lt_of_lt_of_le hms hslope)
    rw [secantStep, if_neg hab]
    dsimp only
    rw [if_neg (not_lt.mpr hslope), secantCore]
    dsimp only
    rw [if_neg hslope0, if_pos hconv]

/-- C2 witness: the bisection solver's loop returns the midpoint `c = 1`
the moment the predicate holds. -/
theorem convergence_check_locations_w :
    bisectLoop (fun x => x - 1) (1/2) (3/2) true 10 5 ⟨0, -1, 2, 1, 1, 2⟩ =
      ⟨.ok 1, 1, 3⟩ := by
  refine ((convergence_check_locations (fun x => x - 1) (1/2) (3/2)
      (7071/10000) (1/1000000) true 10 4).2.2.1 ⟨0, -1, 2, 1, 1, 2⟩
      ?_).trans (by norm_num)
  norm_num [converged, Bool.and_eq_true, decide_eq_true_eq, abs_of_nonneg,
    abs_of_nonpos]

/-- C3 counterexample: a reachable hybrid state (the initial loop state for
`f` with `f(0) = 0`, `f(x) = 1` elsewhere, `a = 0`, `b = 4`,
`use_bisection = 1`, which passes the bracket precondition since the product
is `0`) has `f(a) * f(b) = 0 ≤ 0`, yet the pair produced by its first
iteration — a bisection-mode step — has `f(a) * f(b) = 1 > 0`: the weak
bracket condition `f(a) * f(b) ≤ 0` is not preserved. -/
theorem hybrid_weak_bracket_not_preserved_cex :
    hybridPre (fun x => if x = 0 then (0:ℚ) else 1) 0 4 (1/2) 1 true
        (7071/10000) 1 = .inr ⟨0, 0, 4, 1, 1, none, 0, 2⟩ ∧
    (0:ℚ) * 1 ≤ 0 ∧
    hybridStep (fun x => if x = 0 then (0:ℚ) else 1) (1/2) 1 (7071/10000)
        (1/1000000) true 10 ⟨0, 0, 4, 1, 1, none, 0, 2⟩ =
      .next ⟨4, 1, 2, 1, 0, some 2, 1, 3⟩ ∧
    (0:ℚ) < 1 * 1 := by
  refine ⟨?_, by norm_num, ?_, by norm_num⟩
  · norm_num [hybridPre, hybridEnter, abs_of_nonneg]
  · norm_num [hybridStep, hybridBisect]

/-- C3 (amended): in the hybrid solver, once the current pair satisfies the
STRICT bracket condition `f(a) * f(b) < 0`, any iteration that continues —
whether a bisection-mode step or a Regula-Falsi-mode step that does not
take the slope-repair shift — produces a pair with `f(a) * f(b) ≤ 0` (with
equality possible when `f(c) = 0`), and the pair values stay the values of
`f` at the pair points; the claimed weak version with `≤ 0` in the
hypothesis fails (see the counterexample), as does preservation across the
slope-repair rebinding of `b`.  For the Regula Falsi solver the claim is
vacuous: its loop is unreachable (see C4). -/
theorem hybrid_strict_bracket_step_preservation (f : ℚ → ℚ)
    (ftol xtol cf min_slope : ℚ) (both : Bool) (max_steps : ℕ)
    (st st2 : HState)
    (hfa : st.fa = f st.a) (hfb : st.fb = f st.b)
    (hbr : st.fa * st.fb < 0) (hms : 0 < min_slope)
    (hnorep : 0 < st.ub ∨ min_slope ≤ |(st.fb - st.fa) / (st.b - st.a)|)
    (hstep : hybridStep f ftol xtol cf min_slope both max_steps st = .next st2) :
    st2.fa * st2.fb ≤ 0 ∧ st2.fa = f st2.a ∧ st2.fb = f st2.b := by
  rw [hybridStep] at hstep
  split at hstep
  · exact HRes.noConfusion hstep
  · split at hstep
    · -- bisection-mode step
      injection hstep with h2
      subst h2
      rw [hybridBisect]
      dsimp only
      split
      · exact ⟨le_of_lt (by assumption), hfa, rfl⟩
      · exact ⟨sign_flip hbr (not_lt.mp (by assumption)), hfb, rfl⟩
    · -- Regula-Falsi-mode step, no repair by hnorep
      rename_i hub
      have hslope := hnorep.resolve_left hub
      have hslope0 : (st.fb - st.fa) / (st.b - st.a) ≠ 0 :=
        abs_pos.mp (lt_of_lt_of_le hms hslope)
      rw [hybridRF] at hstep
      dsimp only at hstep
      have hab : ¬(st.b - st.a = 0) := by
        intro h
        rw [hfa, hfb, sub_eq_zero.mp h] at hbr
        exact absurd hbr (not_lt.mpr (mul_self_nonneg (f st.a)))
      rw [if_neg hab, if_neg (not_lt.mpr hslope), hybridRFcore] at hstep
      dsimp only at hstep
      rw [if_neg hslope0] at hstep
      split at hstep
      · exact HRes.noConfusion hstep
      · injection hstep with h2
        subst h2
        rw [hybridClassify]
        dsimp only
        rw [if_pos hbr]
        split
      -- non-interior branch: pair unchanged
        · exact ⟨hbr.le, hfa, hfb⟩
        · split
          · -- f_b * f_c ≥ 0 branch: pair (a, c)
            rename_i hsgn
            split
            · exact ⟨sign_flip (mul_comm st.fa st.fb ▸ hbr) hsgn, hfa, rfl⟩
            · exact ⟨sign_flip (mul_comm st.fa st.fb ▸ hbr) hsgn, hfa, rfl⟩
          · -- f_b * f_c < 0 branch: pair (b, c)
            rename_i hsgn
            split
            · exact ⟨(not_le.mp hsgn).le, hfb, rfl⟩
            · exact ⟨(not_le.mp hsgn).le, hfb, rfl⟩

/-- C3 witness: a strictly bracketing Regula-Falsi-mode step whose produced
pair again satisfies `f(a) * f(b) ≤ 0`. -/
theorem hybrid_strict_bracket_step_preservation_w :
    (⟨0, -1, 1, 0, 0, some 1, 1, 3⟩ : HState).fa *
      (⟨0, -1, 1, 0, 0, some 1, 1, 3⟩ : HState).fb ≤ 0 :=
  (hybrid_strict_bracket_step_preservation (fun x => x - 1) (1/1000000)
    (1/1000000) (7071/10000) (1/1000000) true 10
    ⟨0, -1, 2, 1, 0, none, 0, 2⟩ ⟨0, -1, 1, 0, 0, some 1, 1, 3⟩
    (by norm_num) (by norm_num) (by norm_num) (by norm_num)
    (Or.inr (by norm_num [abs_of_nonneg]))
    (by norm_num [hybridStep, hybridRF, hybridRFcore, hybridClassify,
      converged, abs_of_nonneg, abs_of_nonpos, min_def, max_def])).1

end FindRoots
